import Mathlib

/-!
# Navcom SF-3050 user-space library (`navcom3050lib.cpp`)

A shallow embedding of the session, mnemonic parser, PVT1B decoders and CRC
helpers of `navcom3050lib.cpp`, with the properties the design document states
about them.

Conventions of the embedding

* A byte (`unsigned char`) is a `Fin 256`; the receive buffer `myBuf` is the
  list of the `bufSize` bytes of the heap array.
* An access outside an array has no defined result in C++; a function that
  performs one returns `none`.
* A local variable that the source reads before writing it (`delim`, `temp`,
  the array `vel`, the member `fd`) is a parameter holding its indeterminate
  initial value.
* `int` and `unsigned int` are 32 bits wide, `short` is 16 bits wide.
-/

set_option maxRecDepth 20000

namespace Navcom

/-- A value of type `unsigned char`. -/
abbrev Byte := Fin 256

/-- The character `[`. -/
def lbracket : Byte := 91

/-- The character `]`. -/
def rbracket : Byte := 93

/-- The string literal `"[PVT1B]"`. -/
def pvt1b : List Byte := [91, 80, 86, 84, 49, 66, 93]

/-! ## getMnemonic -/

/-- The `do { result += myBuf[pos]; } while (myBuf[pos++] != delim);` loop of
`getMnemonic`, started on the bytes from `pos` on. The byte is promoted to
`int` for the comparison, and so is the `char` delimiter. Running off the end
of the array is `none`. -/
def scanMnemonic (delim : Int) : List Byte → Option (List Byte)
  | [] => none
  | b :: rest =>
    if (b.val : Int) ≠ delim then (scanMnemonic delim rest).map (fun r => b :: r)
    else some [b]

/-- `navcom3050::getMnemonic`. `delim0` is the indeterminate initial value of
the local `char delim`, which the source assigns only when `myBuf[0] == '['`. -/
def getMnemonic (delim0 : Int) (myBuf : List Byte) : Option (List Byte) :=
  match myBuf with
  | [] => none
  | b0 :: _ =>
    let delim : Int := if b0 = lbracket then 93 else delim0
    scanMnemonic delim myBuf

/-! ## Machine integers and array reads -/

/-- The element `a[i]` of an array of bytes, promoted to a number; `none`
outside the array. -/
def rd (a : List Byte) (i : Nat) : Option Nat :=
  (a[i]?).map (fun b => b.val)

/-- The element `a[i]` for a signed index `i`; `none` outside the array. -/
def rdAt (a : List Byte) (i : Int) : Option Nat :=
  if 0 ≤ i then rd a i.toNat else none

/-- Conversion of an `unsigned int` value to `int` (two's complement, 32 bits). -/
def toInt32 (u : Nat) : Int :=
  if u % 2 ^ 32 < 2 ^ 31 then ((u % 2 ^ 32 : Nat) : Int) else ((u % 2 ^ 32 : Nat) : Int) - 2 ^ 32

/-- Conversion of an `int` value to `unsigned int` (32 bits). -/
def toUInt32 (i : Int) : Nat :=
  (i % 2 ^ 32).toNat

/-- Conversion of an integer value to `short int` (two's complement, 16 bits). -/
def toInt16 (i : Int) : Int :=
  if i % 2 ^ 16 < 2 ^ 15 then i % 2 ^ 16 else i % 2 ^ 16 - 2 ^ 16

/-! ## PVT1B decoders -/

/-- One round `acc += (unsigned int)myBuf[off+x] << 8*x` of the byte-gathering
loops, `acc` being an `int`: the sum is formed in `unsigned int` and converted
back. -/
def accumLE (myBuf : List Byte) (off : Nat) (acc : Option Int) (x : Nat) : Option Int :=
  match acc, rd myBuf (off + x) with
  | some a, some b => some (toInt32 ((toUInt32 a + (b <<< (8 * x)) % 2 ^ 32) % 2 ^ 32))
  | _, _ => none

/-- The `int` expression `(lat / 2048) + (((myBuf[25] & 0xF0) >> 8) / 32768)` of
`getLatitude`, after the loop that gathers `lat` from offsets 17..20. Both
divisions are divisions of `int`, which truncate. -/
def latitudeExpr (myBuf : List Byte) : Option Int :=
  match [0, 1, 2, 3].foldl (accumLE myBuf 17) (some 0), rd myBuf 25 with
  | some lat, some b25 =>
    some (Int.tdiv lat 2048 + Int.tdiv ((((b25 &&& 0xF0) >>> 8 : Nat) : Int)) 32768)
  | _, _ => none

/-- The `int` expression `(lon / 2048) + ((myBuf[25] & 0x0F) / 32768)` of
`getLongitude`, after the loop that gathers `lon` from offsets 21..24. -/
def longitudeExpr (myBuf : List Byte) : Option Int :=
  match [0, 1, 2, 3].foldl (accumLE myBuf 21) (some 0), rd myBuf 25 with
  | some lon, some b25 =>
    some (Int.tdiv lon 2048 + Int.tdiv (((b25 &&& 0x0F : Nat) : Int)) 32768)
  | _, _ => none

/-- `navcom3050::getLatitude`, as the exact value of `(float)(...)/3600` before
the rounding of the final division to `float`. The cast to `float` is exact:
the integer is at most `2^20` in absolute value. -/
def getLatitude (delim0 : Int) (myBuf : List Byte) : Option ℚ :=
  match getMnemonic delim0 myBuf with
  | none => none
  | some m =>
    if m ≠ pvt1b then some (-1)
    else (latitudeExpr myBuf).map (fun n => (n : ℚ) / 3600)

/-- `navcom3050::getLongitude`, as the exact value before the rounding of the
final division to `float`. -/
def getLongitude (delim0 : Int) (myBuf : List Byte) : Option ℚ :=
  match getMnemonic delim0 myBuf with
  | none => none
  | some m =>
    if m ≠ pvt1b then some (-1)
    else (longitudeExpr myBuf).map (fun n => (n : ℚ) / 3600)

/-- The expression `(((temp & 0x800000) != 0 ? 0xFF000000 : 0x0) | temp) / 1024.`
of `getVelocities`. The literal `0xFF000000` does not fit `int`, so it is an
`unsigned int`; the conditional and the `|` are therefore evaluated in
`unsigned int`, and that unsigned value is what is converted to `double`. The
conversion and the division by a power of two are exact. -/
def velocityValue (temp : Int) : ℚ :=
  let u : Nat := toUInt32 temp
  let mask : Nat := if u &&& 0x800000 ≠ 0 then 0xFF000000 else 0x0
  ((mask ||| u : Nat) : ℚ) / 1024

/-- The body of the outer loop of `getVelocities` for component `x`: gather
`temp` from the three bytes at `42 + 3*x`, then store `vel[x]`. -/
def velocityLoopBody (myBuf : List Byte) (acc : Option (List ℚ)) (x : Nat) : Option (List ℚ) :=
  match acc, [0, 1, 2].foldl (accumLE myBuf (42 + 3 * x)) (some 0) with
  | some vel, some temp => some (vel.set x (velocityValue temp))
  | _, _ => none

/-- `navcom3050::getVelocities`. `vel0` is the indeterminate content of the
freshly allocated `new double[3]`. -/
def getVelocities (delim0 : Int) (vel0 : List ℚ) (myBuf : List Byte) : Option (List ℚ) :=
  match getMnemonic delim0 myBuf with
  | none => none
  | some m =>
    if m ≠ pvt1b then some vel0
    else [0, 1, 2].foldl (velocityLoopBody myBuf) (some vel0)

/-! ## CRC helpers -/

/-- One bit of the table generation for the polynomial `0x1021`, on 16 bits. -/
def crcTableStep (c : Nat) : Nat :=
  if c &&& 0x8000 ≠ 0 then ((c <<< 1) ^^^ 0x1021) % 65536 else (c <<< 1) % 65536

/-- Modelled from the spec: `CrcTable` is declared in `navcom3050lib.h`, which is
not among the sources. This is the standard CRC-CCITT table for the polynomial
`0x1021`: entry `i` is the remainder of `i * x^16`, obtained by eight shift
steps from `i << 8`. -/
def CrcTable (i : Nat) : Nat :=
  crcTableStep^[8] (i <<< 8)

/-- The update `accum = (unsigned short)((accum << 8) ^ CrcTable[(accum >> 8) ^ *buf])`
of `crc_CCITT`. -/
def crcUpdate (accum : Nat) (b : Byte) : Nat :=
  ((accum <<< 8) ^^^ CrcTable ((accum >>> 8) ^^^ b.val)) % 65536

/-- `crc_CCITT(buf, length)`. `length` is a `short int` counted down to zero
with `length--`, so the loop runs `length mod 2^16` times; a run past the end
of the array is `none`. -/
def crc_CCITT (buf : List Byte) (length : Int) : Option Nat :=
  let n : Nat := (length % 65536).toNat
  if n ≤ buf.length then some ((buf.take n).foldl crcUpdate 0) else none

/-- The body of the loop of `crc_ASCII` for one value of `icount`, on the pair
`(accum, crcword)`. `lsbyte` is an `unsigned char`, promoted to `int` in the
comparisons and in the shift. -/
def crcAsciiStep (st : Nat × Nat) (icount : Nat) : Nat × Nat :=
  let accum := st.1
  let crcword := st.2
  let lsbyte : Nat := (crcword &&& 0x0000000F) % 256
  let lsbyte : Nat :=
    if (-1 : Int) < (lsbyte : Int) ∧ lsbyte < 10 then (lsbyte + 48) % 256
    else if 9 < lsbyte ∧ lsbyte < 16 then (lsbyte + 55) % 256
    else 0
  ((accum + (lsbyte <<< (8 * icount)) % 2 ^ 32) % 2 ^ 32, crcword >>> 4)

/-- `crc_ASCII(crcword)`, `crcword` being an `unsigned short`. -/
def crc_ASCII (crcword : Nat) : Nat :=
  ([0, 1, 2, 3].foldl crcAsciiStep (0, crcword % 65536)).1

/-- `navcom3050::checkIntegrety(len)`: the two checksums are computed and
printed, and the function returns `false`. The argument of `crc_CCITT` is
`(unsigned short)len`, received as a `short int`. -/
def checkIntegrety (myBuf : List Byte) (len : Int) : Option Bool :=
  match crc_CCITT myBuf (toInt16 (len % 65536)) with
  | none => none
  | some checkSum =>
    let _checkSum32 := crc_ASCII checkSum
    some false

/-- Byte `i` (bits `8i .. 8i+7`) of a 32-bit value. -/
def byteOf (v : Nat) (i : Nat) : Nat :=
  (v >>> (8 * i)) % 256

/-- The nibble value of an ASCII hex digit `'0'..'9'`, `'A'..'F'`; `none` for any
other byte. This decoder follows the words of the design document, the source
has no decoder. -/
def hexDigitValue (c : Nat) : Option Nat :=
  if 48 ≤ c ∧ c ≤ 57 then some (c - 48)
  else if 65 ≤ c ∧ c ≤ 70 then some (c - 55)
  else none

/-- Decoding of the four ASCII hex digits of a 32-bit value back to a 16-bit
value, digit `i` weighing `16^i`. This decoder follows the words of the design
document. -/
def decodeAsciiHex (v : Nat) : Option Nat :=
  match hexDigitValue (byteOf v 0), hexDigitValue (byteOf v 1),
        hexDigitValue (byteOf v 2), hexDigitValue (byteOf v 3) with
  | some d0, some d1, some d2, some d3 => some (d0 + 16 * d1 + 256 * d2 + 4096 * d3)
  | _, _, _, _ => none

/-! ## readFromDevice -/

/-- The variables of `readFromDevice`, with the number of `read` calls issued. -/
structure ReadState where
  temp : List Byte
  r : Int
  pos : Nat
  myBuf : List Byte
  reads : Nat
  deriving DecidableEq, Repr

/-- How the loop of `readFromDevice` ends: it exits, it performs an access
outside an array, or it asks for a read that the transport never answers. -/
inductive LoopExit where
  | exited (s : ReadState)
  | undefinedAccess
  | starved (s : ReadState)
  deriving DecidableEq, Repr

/-- The loop condition `temp[r-1] != '\n' && temp[r-2] != '\r'`; the second
operand is evaluated only when the first holds. -/
def loopCond (temp : List Byte) (r : Int) : Option Bool :=
  match rdAt temp (r - 1) with
  | none => none
  | some a =>
    if a ≠ 10 then
      match rdAt temp (r - 2) with
      | none => none
      | some b => some (decide (b ≠ 13))
    else some false

/-- The stores `myBuf[pos++] = temp[x]` for the bytes of one chunk; `none` when
they run past the end of `myBuf`. -/
def storeChunk (myBuf : List Byte) (pos : Nat) (c : List Byte) : Option (List Byte) :=
  if pos + c.length ≤ myBuf.length then
    some (myBuf.take pos ++ c ++ myBuf.drop (pos + c.length))
  else none

/-- One execution of the loop body on the result of `read(fd,temp,64)`: `none`
is a negative result, `some c` delivers the bytes `c` (at most 64 are taken)
into the front of `temp`. The body ends with a print of `temp[r-2]` and
`temp[r-1]`. The result is `none` on an access outside an array, else the new
state and whether the body left the loop with `break`. -/
def loopBody (s : ReadState) (res : Option (List Byte)) : Option (ReadState × Bool) :=
  match res with
  | none => some ({ s with r := -1, reads := s.reads + 1 }, true)
  | some chunk =>
    let c := chunk.take 64
    let temp := c ++ s.temp.drop c.length
    let r : Int := c.length
    match storeChunk s.myBuf s.pos c, rdAt temp (r - 2), rdAt temp (r - 1) with
    | some buf, some _, some _ =>
      some ({ temp := temp, r := r, pos := s.pos + c.length, myBuf := buf,
              reads := s.reads + 1 }, false)
    | _, _, _ => none

/-- The `while` loop of `readFromDevice` against a transport that answers the
successive `read` calls with the elements of the list. -/
def readLoop : List (Option (List Byte)) → ReadState → LoopExit
  | [], s =>
    match loopCond s.temp s.r with
    | none => .undefinedAccess
    | some false => .exited s
    | some true => .starved s
  | res :: transport, s =>
    match loopCond s.temp s.r with
    | none => .undefinedAccess
    | some false => .exited s
    | some true =>
      match loopBody s res with
      | none => .undefinedAccess
      | some (s1, true) => .exited s1
      | some (s1, false) => readLoop transport s1

/-- What a call of `readFromDevice` comes to. -/
inductive ReadOutcome where
  | returned (pos : Nat) (myBuf : List Byte) (reads : Nat)
  | undefinedAccess
  | blocked (reads : Nat)
  deriving DecidableEq, Repr

/-- `navcom3050::readFromDevice`. `temp0` is the indeterminate content of the
local array `temp[64]`. Both branches after `checkIntegrety(r)` return `pos`. -/
def readFromDevice (temp0 : List Byte) (myBuf : List Byte)
    (transport : List (Option (List Byte))) : ReadOutcome :=
  match readLoop transport { temp := temp0, r := 2, pos := 0, myBuf := myBuf, reads := 0 } with
  | .undefinedAccess => .undefinedAccess
  | .starved s => .blocked s.reads
  | .exited s =>
    match checkIntegrety s.myBuf s.r with
    | none => .undefinedAccess
    | some true => .returned s.pos s.myBuf s.reads
    | some false => .returned s.pos s.myBuf s.reads

/-- The terminator test the design document asks for: at least two bytes are
accumulated and the last two are carriage-return, line-feed. This predicate
follows the words of the design document. -/
def endsWithTerminator (acc : List Byte) : Bool :=
  decide (2 ≤ acc.length) && decide (acc.drop (acc.length - 2) = [13, 10])

/-! ## Session -/

/-- The member `fd` of a `navcom3050` object, together with the descriptors
that the operating system currently holds open for the process. -/
structure Session where
  fd : Int
  openFds : List Int
  deriving DecidableEq, Repr

/-- `navcom3050::openDevice`: `fd = open(...)`. `res` is the result of `open`:
`-1` on failure, else the new descriptor. -/
def openDevice (s : Session) (res : Int) : Session :=
  { fd := res, openFds := if 0 ≤ res then res :: s.openFds else s.openFds }

/-- `navcom3050::closeDevice`: `return close(fd)`. The member `fd` keeps its
value. The second component is the result of `close`. -/
def closeDevice (s : Session) : Session × Int :=
  if s.fd ∈ s.openFds then ({ s with openFds := s.openFds.erase s.fd }, 0) else (s, -1)

/-- `navcom3050::isOpen`: `return (fd > 0)`. -/
def isOpen (s : Session) : Bool :=
  decide (0 < s.fd)

/-- The session holds a valid handle: its `fd` is a descriptor that is open. -/
def holdsHandle (s : Session) : Bool :=
  decide (s.fd ∈ s.openFds)

/-! ## Concrete buffers -/

/-- A 51-byte PVT1B record whose north velocity field (offsets 42..44) is
`FF FF FF`, all other payload bytes being zero. -/
def velocityRecord : List Byte :=
  pvt1b ++ (List.replicate 35 0 ++ [255, 255, 255] ++ List.replicate 6 0)

/-- A 51-byte PVT1B record with the latitude integer `2048` at offsets 17..20,
the longitude integer `0` at offsets 21..24 and the nibble byte `0xA5` at
offset 25. -/
def positionRecord : List Byte :=
  pvt1b ++ (List.replicate 10 0 ++ [0, 8, 0, 0] ++ [0, 0, 0, 0] ++ [0xA5] ++ List.replicate 25 0)

/-- A 51-byte record with the same payload as `positionRecord` under the
mnemonic `"[PVT1A]"`. -/
def otherRecord : List Byte :=
  [91, 80, 86, 84, 49, 65, 93] ++
    (List.replicate 10 0 ++ [0, 8, 0, 0] ++ [0, 0, 0, 0] ++ [0xA5] ++ List.replicate 25 0)

/-- The nine bytes `"123456789"` followed by the four ASCII bytes `"3C13"`. -/
def checkedMessage : List Byte :=
  [49, 50, 51, 52, 53, 54, 55, 56, 57] ++ [0x33, 0x43, 0x31, 0x33]

/-- The little-endian 32-bit value of the four bytes of a buffer from `off` on. -/
def wordAt (buf : List Byte) (off : Nat) : Option Nat :=
  match rd buf off, rd buf (off + 1), rd buf (off + 2), rd buf (off + 3) with
  | some b0, some b1, some b2, some b3 => some (b0 + 256 * b1 + 65536 * b2 + 16777216 * b3)
  | _, _, _, _ => none

/-- The little-endian unsigned value of the three bytes of a buffer from `off`
on. This reading follows the words of the design document. -/
def tripleAt (buf : List Byte) (off : Nat) : Option Nat :=
  match rd buf off, rd buf (off + 1), rd buf (off + 2) with
  | some b0, some b1, some b2 => some (b0 + 256 * b1 + 65536 * b2)
  | _, _, _ => none

/-- The 24-bit two's-complement reading of an unsigned 24-bit value: negative
exactly when bit 23 is set. This reading follows the words of the design
document. -/
def signed24 (u : Nat) : Int :=
  if u < 2 ^ 23 then (u : Int) else (u : Int) - 2 ^ 24

/-! ## Lemmas on the mnemonic scan -/

theorem scanMnemonic_append (delim : Int) (pre : List Byte) (b : Byte) (rest : List Byte)
    (hpre : ∀ x ∈ pre, (x.val : Int) ≠ delim) (hb : (b.val : Int) = delim) :
    scanMnemonic delim (pre ++ b :: rest) = some (pre ++ [b]) := by
  induction pre with
  | nil => simp [scanMnemonic, hb]
  | cons x xs ih =>
    have hx : (x.val : Int) ≠ delim := hpre x (List.mem_cons_self _ _)
    have hxs : ∀ y ∈ xs, (y.val : Int) ≠ delim := fun y hy => hpre y (List.mem_cons_of_mem _ hy)
    simp [scanMnemonic, hx, ih hxs]

theorem scanMnemonic_none (delim : Int) (buf : List Byte)
    (h : ∀ x ∈ buf, (x.val : Int) ≠ delim) : scanMnemonic delim buf = none := by
  induction buf with
  | nil => rfl
  | cons x xs ih =>
    have hx : (x.val : Int) ≠ delim := h x (List.mem_cons_self _ _)
    have hxs : ∀ y ∈ xs, (y.val : Int) ≠ delim := fun y hy => h y (List.mem_cons_of_mem _ hy)
    simp [scanMnemonic, hx, ih hxs]

theorem byte_ne_rbracket {x : Byte} (h : x ≠ rbracket) : (x.val : Int) ≠ 93 := by
  intro hx
  apply h
  apply Fin.ext
  have : x.val = 93 := by exact_mod_cast hx
  simpa [rbracket] using this

/-- Every buffer that starts with the seven bytes of `"[PVT1B]"` has that
mnemonic, whatever follows. -/
theorem getMnemonic_pvt1b (delim0 : Int) (rest : List Byte) :
    getMnemonic delim0 (pvt1b ++ rest) = some pvt1b := by
  have h := scanMnemonic_append 93 [91, 80, 86, 84, 49, 66] 93 rest (by decide) (by decide)
  simpa [getMnemonic, pvt1b, lbracket] using h

theorem exists_first_rbracket (buf : List Byte) (h : rbracket ∈ buf) :
    ∃ pre rest, buf = pre ++ rbracket :: rest ∧ rbracket ∉ pre := by
  induction buf with
  | nil => simp at h
  | cons x xs ih =>
    by_cases hx : x = rbracket
    · exact ⟨[], xs, by simp [hx], by simp⟩
    · have hxs : rbracket ∈ xs := by
        rcases List.mem_cons.mp h with h1 | h1
        · exact absurd h1.symm hx
        · exact h1
      obtain ⟨pre, rest, he, hn⟩ := ih hxs
      refine ⟨x :: pre, rest, by simp [he], ?_⟩
      intro hmem
      rcases List.mem_cons.mp hmem with h1 | h1
      · exact hx h1.symm
      · exact hn h1

/-- A buffer that starts with `[` and holds no `]` makes the scan run off the
end of the array. -/
theorem getMnemonic_unclosed (delim0 : Int) (myBuf : List Byte)
    (hfirst : myBuf.head? = some lbracket) (hnone : rbracket ∉ myBuf) :
    getMnemonic delim0 myBuf = none := by
  cases myBuf with
  | nil => rfl
  | cons b0 tl =>
    have hb0 : b0 = lbracket := by simpa using hfirst
    have hall : ∀ x ∈ b0 :: tl, (x.val : Int) ≠ 93 := by
      intro x hx
      apply byte_ne_rbracket
      intro hxe
      exact hnone (hxe ▸ hx)
    simp only [getMnemonic, hb0, if_true]
    rw [← hb0]
    exact scanMnemonic_none 93 (b0 :: tl) hall

/-! ## Mnemonic parser -/

/-- C6: when the buffer starts with `[` and holds a `]`, `getMnemonic` returns
exactly the bytes from index 0 up to and including the first `]`: the buffer
splits as `pre ++ ']' :: rest` with no `]` in `pre`, and the result is
`pre ++ "]"`. A buffer that begins with `"[PVT1B]"` gives exactly `"[PVT1B]"`
whatever bytes follow. -/
theorem getMnemonic_upto_first_rbracket (delim0 : Int) (myBuf : List Byte)
    (hfirst : myBuf.head? = some lbracket) (hclose : rbracket ∈ myBuf) :
    (∃ pre rest, myBuf = pre ++ rbracket :: rest ∧ rbracket ∉ pre ∧
      getMnemonic delim0 myBuf = some (pre ++ [rbracket])) ∧
    (∀ tail : List Byte, getMnemonic delim0 (pvt1b ++ tail) = some pvt1b) := by
  refine ⟨?_, getMnemonic_pvt1b delim0⟩
  obtain ⟨pre, rest, he, hn⟩ := exists_first_rbracket myBuf hclose
  refine ⟨pre, rest, he, hn, ?_⟩
  have hpre : ∀ x ∈ pre, (x.val : Int) ≠ 93 := by
    intro x hx
    apply byte_ne_rbracket
    intro hxe
    exact hn (hxe ▸ hx)
  have hscan := scanMnemonic_append 93 pre rbracket rest hpre (by decide)
  cases myBuf with
  | nil => simp at hfirst
  | cons b0 tl =>
    have hb0 : b0 = lbracket := by simpa using hfirst
    simp only [getMnemonic, hb0, if_true]
    rw [← hb0, he]
    exact hscan

theorem getMnemonic_upto_first_rbracket_witness :
    (∃ pre rest, ([91, 65, 93, 93, 7] : List Byte) = pre ++ rbracket :: rest ∧ rbracket ∉ pre ∧
      getMnemonic 0 [91, 65, 93, 93, 7] = some (pre ++ [rbracket])) ∧
    (∀ tail : List Byte, getMnemonic 0 (pvt1b ++ tail) = some pvt1b) :=
  getMnemonic_upto_first_rbracket 0 [91, 65, 93, 93, 7] (by decide) (by decide)

/-- C7: `getMnemonic` has no `MalformedMessage` result. On the three-byte buffer
`"[AB"`, which holds no `]`, the scan reads index 3, outside the array; on the
buffer `"XAB]"`, whose first byte is not `[`, the delimiter is whatever the
uninitialised `delim` holds, and with the value `'B'` there the call returns
the string `"XAB"`. -/
theorem getMnemonic_malformed_inputs :
    (∀ delim0 : Int, getMnemonic delim0 [91, 65, 66] = none) ∧
    getMnemonic 66 [88, 65, 66, 93] = some [88, 65, 66] := by
  refine ⟨fun delim0 => getMnemonic_unclosed delim0 [91, 65, 66] (by decide) (by decide), ?_⟩
  decide

/-! ## PVT1B decoders -/

theorem getMnemonic_otherRecord (delim0 : Int) :
    getMnemonic delim0 otherRecord = some [91, 80, 86, 84, 49, 65, 93] := by
  have h := scanMnemonic_append 93 [91, 80, 86, 84, 49, 65] 93
    (List.replicate 10 0 ++ [0, 8, 0, 0] ++ [0, 0, 0, 0] ++ [0xA5] ++ List.replicate 25 0)
    (by decide) (by decide)
  simpa [getMnemonic, otherRecord, lbracket] using h

/-- C1: on a PVT1B record whose bytes at offsets 42..44 are `FF FF FF`,
`getVelocities` stores `4294967295/1024` as the north velocity, whatever the
array held before: the sign mask is applied in `unsigned int`, so the value
converted to `double` is `0xFFFFFFFF`, not `-1`. -/
theorem getVelocities_ffffff_is_positive (delim0 : Int) (a b c : ℚ) :
    getVelocities delim0 [a, b, c] velocityRecord = some [4294967295 / 1024, 0, 0] ∧
    (4294967295 / 1024 : ℚ) ≠ -1 / 1024 := by
  have hm : getMnemonic delim0 velocityRecord = some pvt1b := getMnemonic_pvt1b delim0 _
  have h0 : [0, 1, 2].foldl (accumLE velocityRecord (42 + 3 * 0)) (some 0) = some 16777215 := by
    decide
  have h1 : [0, 1, 2].foldl (accumLE velocityRecord (42 + 3 * 1)) (some 0) = some 0 := by
    decide
  have h2 : [0, 1, 2].foldl (accumLE velocityRecord (42 + 3 * 2)) (some 0) = some 0 := by
    decide
  have v0 : velocityValue 16777215 = 4294967295 / 1024 := by
    simp [velocityValue, toUInt32]
  have v1 : velocityValue 0 = 0 := by
    simp [velocityValue, toUInt32]
  refine ⟨?_, by norm_num⟩
  simp only [getVelocities, hm, ne_eq, not_true_eq_false, if_false, List.foldl_cons,
    List.foldl_nil, velocityLoopBody, h0, h1, h2, v0, v1]
  rfl

/-- C2: on a PVT1B record with the integer 2048 at offsets 17..20, the integer 0
at offsets 21..24 and the byte `0xA5` at offset 25, `getLatitude` is `1/3600`
and `getLongitude` is `0`: the nibble terms `(0xA0 >> 8) / 32768` and
`0x05 / 32768` are integer expressions equal to zero. The stated formula gives
`(2048/2048 + 10/32768)/3600` and `(0/2048 + 5/32768)/3600`. -/
theorem getLatitude_getLongitude_drop_nibble (delim0 : Int) :
    getLatitude delim0 positionRecord = some (1 / 3600) ∧
    getLongitude delim0 positionRecord = some 0 ∧
    (1 / 3600 : ℚ) ≠ (2048 / 2048 + 10 / 32768) / 3600 ∧
    (0 : ℚ) ≠ (0 / 2048 + 5 / 32768) / 3600 := by
  have hm : getMnemonic delim0 positionRecord = some pvt1b := getMnemonic_pvt1b delim0 _
  have hlat : latitudeExpr positionRecord = some 1 := by decide
  have hlon : longitudeExpr positionRecord = some 0 := by decide
  refine ⟨?_, ?_, by norm_num, by norm_num⟩
  · simp [getLatitude, hm, hlat]
  · simp [getLongitude, hm, hlon]

/-- C5 (as stated, refuted): on a record whose mnemonic is `"[PVT1A]"`,
`getLatitude` and `getLongitude` return the ordinary value `-1` and
`getVelocities` returns the array it allocated, untouched. -/
theorem decoders_return_values_on_other_mnemonic :
    getMnemonic 0 otherRecord = some [91, 80, 86, 84, 49, 65, 93] ∧
    ([91, 80, 86, 84, 49, 65, 93] : List Byte) ≠ pvt1b ∧
    getLatitude 0 otherRecord = some (-1) ∧
    getLongitude 0 otherRecord = some (-1) ∧
    getVelocities 0 [7, 8, 9] otherRecord = some [7, 8, 9] := by
  have hm := getMnemonic_otherRecord 0
  have hne : ([91, 80, 86, 84, 49, 65, 93] : List Byte) ≠ pvt1b := by decide
  refine ⟨hm, hne, ?_, ?_, ?_⟩
  · simp [getLatitude, hm, hne]
  · simp [getLongitude, hm, hne]
  · simp [getVelocities, hm, hne]

/-- C5 (amended): when `getMnemonic` yields a string other than `"[PVT1B]"`,
`getLatitude` and `getLongitude` return the sentinel `-1`, and `getVelocities`
returns the array it allocated without storing any component. -/
theorem decoders_on_other_mnemonic (delim0 : Int) (vel0 : List ℚ) (myBuf m : List Byte)
    (hm : getMnemonic delim0 myBuf = some m) (hne : m ≠ pvt1b) :
    getLatitude delim0 myBuf = some (-1) ∧
    getLongitude delim0 myBuf = some (-1) ∧
    getVelocities delim0 vel0 myBuf = some vel0 := by
  refine ⟨?_, ?_, ?_⟩
  · simp [getLatitude, hm, hne]
  · simp [getLongitude, hm, hne]
  · simp [getVelocities, hm, hne]

theorem decoders_on_other_mnemonic_witness :
    getLatitude 0 otherRecord = some (-1) ∧
    getLongitude 0 otherRecord = some (-1) ∧
    getVelocities 0 [7, 8, 9] otherRecord = some [7, 8, 9] :=
  decoders_on_other_mnemonic 0 [7, 8, 9] otherRecord [91, 80, 86, 84, 49, 65, 93]
    (getMnemonic_otherRecord 0) (by decide)

/-! ## Read loop -/

/-- C3: with `temp` initially all zero and a 16-byte `myBuf`, a first chunk
`"ab\n"` ends the loop after one read although the accumulated bytes end in
`b`, line-feed; a first chunk `"a\rb"` ends it as well; with a line-feed left
in `temp[1]` no read is issued at all; and when the terminator is split as
`"ab\r"` then `"\n"`, the one-byte chunk makes the body read `temp[-1]`. -/
theorem readFromDevice_terminator_test :
    readFromDevice (List.replicate 64 0) (List.replicate 16 0)
        [some [97, 98, 10], some [99, 100, 13, 10]]
      = .returned 3 ([97, 98, 10] ++ List.replicate 13 0) 1 ∧
    endsWithTerminator [97, 98, 10] = false ∧
    readFromDevice (List.replicate 64 0) (List.replicate 16 0)
        [some [97, 13, 98], some [99, 100, 13, 10]]
      = .returned 3 ([97, 13, 98] ++ List.replicate 13 0) 1 ∧
    endsWithTerminator [97, 13, 98] = false ∧
    readFromDevice (0 :: 10 :: List.replicate 62 0) (List.replicate 16 0)
        [some [97, 98, 13, 10]]
      = .returned 0 (List.replicate 16 0) 0 ∧
    readFromDevice (List.replicate 64 0) (List.replicate 16 0)
        [some [97, 98, 13], some [10]]
      = .undefinedAccess := by
  refine ⟨?_, ?_, ?_, ?_, ?_, ?_⟩ <;> decide

/-! ## Integrity check -/

/-- C4: `checkIntegrety` never returns `true`, for any buffer and length. On the
message `"123456789"` followed by `"3C13"` the computed checksum is `0x31C3`,
its ASCII form `0x33314333` is the trailing four bytes, and the result is
`false`. -/
theorem checkIntegrety_never_true :
    (∀ (myBuf : List Byte) (len : Int), checkIntegrety myBuf len ≠ some true) ∧
    crc_CCITT checkedMessage 9 = some 0x31C3 ∧
    crc_ASCII 0x31C3 = 0x33314333 ∧
    wordAt checkedMessage 9 = some 0x33314333 ∧
    checkIntegrety checkedMessage 9 = some false := by
  refine ⟨?_, by decide, by decide, by decide, by decide⟩
  intro myBuf len
  unfold checkIntegrety
  cases crc_CCITT myBuf (toInt16 (len % 65536)) <;> simp

/-! ## Session -/

/-- C10: after `openDevice` obtains descriptor 3 and `closeDevice` closes it,
`close` has succeeded, the session holds no open descriptor, and `isOpen` is
still `true`, whatever `fd` held before. After an `openDevice` whose `open`
failed, `isOpen` is `false`. -/
theorem isOpen_true_after_close (fd0 : Int) :
    (closeDevice (openDevice ⟨fd0, []⟩ 3)).2 = 0 ∧
    holdsHandle (closeDevice (openDevice ⟨fd0, []⟩ 3)).1 = false ∧
    isOpen (closeDevice (openDevice ⟨fd0, []⟩ 3)).1 = true ∧
    isOpen (openDevice ⟨fd0, []⟩ (-1)) = false := by
  refine ⟨?_, ?_, ?_, ?_⟩ <;> simp [closeDevice, openDevice, holdsHandle, isOpen]

/-! ## ASCII form of the checksum -/

theorem land15 (x : Nat) : x &&& 15 = x % 16 := Nat.and_pow_two_sub_one_eq_mod x 4

theorem crcAsciiStep_eq (a c i : Nat) :
    crcAsciiStep (a, c) i =
      ((a + ((if c % 16 < 10 then c % 16 + 48 else c % 16 + 55) * 2 ^ (8 * i)) % 2 ^ 32) % 2 ^ 32,
        c / 16) := by
  have h16 : c % 16 < 16 := Nat.mod_lt _ (by norm_num)
  have hm : c % 16 % 256 = c % 16 := Nat.mod_eq_of_lt (by omega)
  simp only [crcAsciiStep, land15, Nat.shiftLeft_eq, Nat.shiftRight_eq_div_pow, hm]
  by_cases h : c % 16 < 10
  · have h1 : (-1 : Int) < ((c % 16 : Nat) : Int) ∧ c % 16 < 10 := ⟨by omega, h⟩
    have h2 : (c % 16 + 48) % 256 = c % 16 + 48 := Nat.mod_eq_of_lt (by omega)
    have h1' : (-1 : Int) < (c : Int) % 16 := by omega
    simp [h, h2, h1']
  · have h1 : ¬ ((-1 : Int) < ((c % 16 : Nat) : Int) ∧ c % 16 < 10) := fun hh => h hh.2
    have h3 : 9 < c % 16 ∧ c % 16 < 16 := ⟨by omega, h16⟩
    have h2 : (c % 16 + 55) % 256 = c % 16 + 55 := Nat.mod_eq_of_lt (by omega)
    simp [h, h3, h2]

theorem hexDigitValue_enc (n : Nat) (h : n < 16) :
    hexDigitValue (if n < 10 then n + 48 else n + 55) = some n := by
  unfold hexDigitValue
  by_cases h10 : n < 10
  · have h1 : 48 ≤ n + 48 ∧ n + 48 ≤ 57 := ⟨by omega, by omega⟩
    simp [h10, h1]
  · have h1 : ¬ (48 ≤ n + 55 ∧ n + 55 ≤ 57) := fun hh => by omega
    have h2 : 65 ≤ n + 55 ∧ n + 55 ≤ 70 := ⟨by omega, by omega⟩
    simp only [h10, if_false, h1, h2, and_self, if_true]
    simp

theorem enc_bounds (n : Nat) (h : n < 16) :
    48 ≤ (if n < 10 then n + 48 else n + 55) ∧ (if n < 10 then n + 48 else n + 55) ≤ 70 := by
  split_ifs <;> omega

theorem crc_ASCII_val (w : Nat) (hw : w < 65536) :
    crc_ASCII w =
      (if w % 16 < 10 then w % 16 + 48 else w % 16 + 55)
      + 256 * (if w / 16 % 16 < 10 then w / 16 % 16 + 48 else w / 16 % 16 + 55)
      + 65536 * (if w / 16 / 16 % 16 < 10 then w / 16 / 16 % 16 + 48 else w / 16 / 16 % 16 + 55)
      + 16777216 * (if w / 16 / 16 / 16 % 16 < 10 then w / 16 / 16 / 16 % 16 + 48
          else w / 16 / 16 / 16 % 16 + 55) := by
  have hw' : w % 65536 = w := Nat.mod_eq_of_lt hw
  simp only [crc_ASCII, List.foldl_cons, List.foldl_nil, crcAsciiStep_eq, hw']
  have b0 := enc_bounds (w % 16) (Nat.mod_lt _ (by norm_num))
  have b1 := enc_bounds (w / 16 % 16) (Nat.mod_lt _ (by norm_num))
  have b2 := enc_bounds (w / 16 / 16 % 16) (Nat.mod_lt _ (by norm_num))
  have b3 := enc_bounds (w / 16 / 16 / 16 % 16) (Nat.mod_lt _ (by norm_num))
  generalize (if w % 16 < 10 then w % 16 + 48 else w % 16 + 55) = e0 at *
  generalize (if w / 16 % 16 < 10 then w / 16 % 16 + 48 else w / 16 % 16 + 55) = e1 at *
  generalize (if w / 16 / 16 % 16 < 10 then w / 16 / 16 % 16 + 48
    else w / 16 / 16 % 16 + 55) = e2 at *
  generalize (if w / 16 / 16 / 16 % 16 < 10 then w / 16 / 16 / 16 % 16 + 48
    else w / 16 / 16 / 16 % 16 + 55) = e3 at *
  norm_num
  omega


theorem byteOf_sum (e0 e1 e2 e3 : Nat) (h0 : e0 < 256) (h1 : e1 < 256) (h2 : e2 < 256)
    (h3 : e3 < 256) :
    byteOf (e0 + 256 * e1 + 65536 * e2 + 16777216 * e3) 0 = e0 ∧
    byteOf (e0 + 256 * e1 + 65536 * e2 + 16777216 * e3) 1 = e1 ∧
    byteOf (e0 + 256 * e1 + 65536 * e2 + 16777216 * e3) 2 = e2 ∧
    byteOf (e0 + 256 * e1 + 65536 * e2 + 16777216 * e3) 3 = e3 := by
  simp only [byteOf, Nat.shiftRight_eq_div_pow]
  norm_num
  refine ⟨?_, ?_, ?_, ?_⟩ <;> omega

theorem decode_digits (e0 e1 e2 e3 n0 n1 n2 n3 : Nat)
    (b0 : 48 ≤ e0 ∧ e0 ≤ 70) (b1 : 48 ≤ e1 ∧ e1 ≤ 70) (b2 : 48 ≤ e2 ∧ e2 ≤ 70)
    (b3 : 48 ≤ e3 ∧ e3 ≤ 70)
    (d0 : hexDigitValue e0 = some n0) (d1 : hexDigitValue e1 = some n1)
    (d2 : hexDigitValue e2 = some n2) (d3 : hexDigitValue e3 = some n3) :
    decodeAsciiHex (e0 + 256 * e1 + 65536 * e2 + 16777216 * e3)
      = some (n0 + 16 * n1 + 256 * n2 + 4096 * n3) ∧
    (∀ i, i < 4 →
      hexDigitValue (byteOf (e0 + 256 * e1 + 65536 * e2 + 16777216 * e3) i) ≠ none) := by
  obtain ⟨y0, y1, y2, y3⟩ := byteOf_sum e0 e1 e2 e3 (by omega) (by omega) (by omega) (by omega)
  constructor
  · unfold decodeAsciiHex
    rw [y0, y1, y2, y3, d0, d1, d2, d3]
  · intro i hi
    have hcases : i = 0 ∨ i = 1 ∨ i = 2 ∨ i = 3 := by omega
    rcases hcases with h | h | h | h
    · rw [h, y0, d0]; simp
    · rw [h, y1, d1]; simp
    · rw [h, y2, d2]; simp
    · rw [h, y3, d3]; simp

theorem hexDigitValue_range (c : Nat) (h : hexDigitValue c ≠ none) :
    (48 ≤ c ∧ c ≤ 57) ∨ (65 ≤ c ∧ c ≤ 70) := by
  unfold hexDigitValue at h
  by_cases h1 : 48 ≤ c ∧ c ≤ 57
  · exact Or.inl h1
  · by_cases h2 : 65 ≤ c ∧ c ≤ 70
    · exact Or.inr h2
    · simp [h1, h2] at h

theorem crc_ASCII_lt (w : Nat) : crc_ASCII w < 2 ^ 32 := by
  simp only [crc_ASCII, List.foldl_cons, List.foldl_nil, crcAsciiStep_eq]
  exact Nat.mod_lt _ (by norm_num)

/-- C8: for every 16-bit value `w`, each of the four bytes of `crc_ASCII w` is an
ASCII hex digit `'0'..'9'` or `'A'..'F'`, the result fits 32 bits, and decoding
the four digits to nibbles `d_0 .. d_3` and reassembling
`d_0 + 16*d_1 + 256*d_2 + 4096*d_3` gives `w` back. -/
theorem crc_ASCII_round_trip (w : Nat) (hw : w < 65536) :
    (∀ i, i < 4 → (48 ≤ byteOf (crc_ASCII w) i ∧ byteOf (crc_ASCII w) i ≤ 57) ∨
      (65 ≤ byteOf (crc_ASCII w) i ∧ byteOf (crc_ASCII w) i ≤ 70)) ∧
    crc_ASCII w < 2 ^ 32 ∧
    decodeAsciiHex (crc_ASCII w) = some w := by
  have l0 : w % 16 < 16 := Nat.mod_lt _ (by norm_num)
  have l1 : w / 16 % 16 < 16 := Nat.mod_lt _ (by norm_num)
  have l2 : w / 16 / 16 % 16 < 16 := Nat.mod_lt _ (by norm_num)
  have l3 : w / 16 / 16 / 16 % 16 < 16 := Nat.mod_lt _ (by norm_num)
  have hsum : w % 16 + 16 * (w / 16 % 16) + 256 * (w / 16 / 16 % 16)
      + 4096 * (w / 16 / 16 / 16 % 16) = w := by omega
  have h := decode_digits _ _ _ _ _ _ _ _ (enc_bounds _ l0) (enc_bounds _ l1) (enc_bounds _ l2)
    (enc_bounds _ l3) (hexDigitValue_enc _ l0) (hexDigitValue_enc _ l1)
    (hexDigitValue_enc _ l2) (hexDigitValue_enc _ l3)
  rw [← crc_ASCII_val w hw, hsum] at h
  exact ⟨fun i hi => hexDigitValue_range _ (h.2 i hi), crc_ASCII_lt w, h.1⟩

theorem crc_ASCII_round_trip_witness :
    (∀ i, i < 4 → (48 ≤ byteOf (crc_ASCII 0x31C3) i ∧ byteOf (crc_ASCII 0x31C3) i ≤ 57) ∨
      (65 ≤ byteOf (crc_ASCII 0x31C3) i ∧ byteOf (crc_ASCII 0x31C3) i ≤ 70)) ∧
    crc_ASCII 0x31C3 < 2 ^ 32 ∧
    decodeAsciiHex (crc_ASCII 0x31C3) = some 0x31C3 :=
  crc_ASCII_round_trip 0x31C3 (by decide)

/-! ## CRC-CCITT -/

theorem xor_mod_two_pow (a b n : Nat) : (a ^^^ b) % 2 ^ n = (a % 2 ^ n) ^^^ (b % 2 ^ n) := by
  apply Nat.eq_of_testBit_eq
  intro i
  simp only [Nat.testBit_mod_two_pow, Nat.testBit_xor]
  by_cases h : i < n <;> simp [h]

/-- The first entries and the last entry of the table are those of the
published CRC-CCITT table, and the checksum of `"123456789"` is `0x31C3`. -/
theorem CrcTable_entries :
    (List.range 8).map CrcTable
      = [0x0000, 0x1021, 0x2042, 0x3063, 0x4084, 0x50A5, 0x60C6, 0x70E7] ∧
    CrcTable 255 = 0x1EF0 ∧
    crc_CCITT [49, 50, 51, 52, 53, 54, 55, 56, 57] 9 = some 0x31C3 := by
  refine ⟨by decide, by decide, by decide⟩

set_option maxRecDepth 1000000 in
theorem crcTable_low_nodup : ((List.range 256).map (fun i => CrcTable i % 256)).Nodup := by
  decide

theorem crcTable_low_inj (i j : Nat) (hi : i < 256) (hj : j < 256)
    (h : CrcTable i % 256 = CrcTable j % 256) : i = j :=
  List.inj_on_of_nodup_map crcTable_low_nodup (List.mem_range.mpr hi) (List.mem_range.mpr hj) h

theorem crcUpdate_lt (a : Nat) (b : Byte) : crcUpdate a b < 65536 :=
  Nat.mod_lt _ (by norm_num)

theorem crcIndex_lt (a : Nat) (b : Byte) (ha : a < 65536) : (a >>> 8) ^^^ b.val < 256 := by
  have h1 : a >>> 8 < 2 ^ 8 := by
    rw [Nat.shiftRight_eq_div_pow]
    norm_num
    omega
  have h2 : b.val < 2 ^ 8 := b.isLt
  exact Nat.xor_lt_two_pow h1 h2

theorem crcUpdate_low (a : Nat) (b : Byte) :
    crcUpdate a b % 256 = CrcTable ((a >>> 8) ^^^ b.val) % 256 := by
  unfold crcUpdate
  rw [Nat.mod_mod_of_dvd _ (by norm_num : 256 ∣ 65536)]
  have h := xor_mod_two_pow (a <<< 8) (CrcTable ((a >>> 8) ^^^ b.val)) 8
  have h0 : (a <<< 8) % 2 ^ 8 = 0 := by
    rw [Nat.shiftLeft_eq]
    exact Nat.mul_mod_left _ _
  rw [h0, Nat.zero_xor] at h
  simpa using h

theorem crcUpdate_inj_byte (a : Nat) (b b' : Byte) (ha : a < 65536)
    (h : crcUpdate a b = crcUpdate a b') : b = b' := by
  have hl : CrcTable ((a >>> 8) ^^^ b.val) % 256 = CrcTable ((a >>> 8) ^^^ b'.val) % 256 := by
    rw [← crcUpdate_low, ← crcUpdate_low, h]
  have hx := crcTable_low_inj _ _ (crcIndex_lt a b ha) (crcIndex_lt a b' ha) hl
  exact Fin.ext (Nat.xor_right_injective hx)

theorem crcUpdate_inj_accum (a a' : Nat) (b : Byte) (ha : a < 65536) (ha' : a' < 65536)
    (h : crcUpdate a b = crcUpdate a' b) : a = a' := by
  have hl : CrcTable ((a >>> 8) ^^^ b.val) % 256 = CrcTable ((a' >>> 8) ^^^ b.val) % 256 := by
    rw [← crcUpdate_low, ← crcUpdate_low, h]
  have hx := crcTable_low_inj _ _ (crcIndex_lt a b ha) (crcIndex_lt a' b ha') hl
  have hhi : a >>> 8 = a' >>> 8 := Nat.xor_left_injective hx
  unfold crcUpdate at h
  rw [← hx] at h
  have e : (65536 : Nat) = 2 ^ 16 := by norm_num
  rw [e, xor_mod_two_pow, xor_mod_two_pow] at h
  have hlo : (a <<< 8) % 2 ^ 16 = (a' <<< 8) % 2 ^ 16 := Nat.xor_left_injective h
  rw [Nat.shiftLeft_eq, Nat.shiftLeft_eq] at hlo
  rw [Nat.shiftRight_eq_div_pow, Nat.shiftRight_eq_div_pow] at hhi
  norm_num at hlo hhi
  omega

theorem foldl_crcUpdate_lt (l : List Byte) (a : Nat) (ha : a < 65536) :
    l.foldl crcUpdate a < 65536 := by
  induction l generalizing a with
  | nil => exact ha
  | cons x xs ih => exact ih _ (crcUpdate_lt a x)

theorem foldl_crcUpdate_ne (l : List Byte) (a a' : Nat) (ha : a < 65536) (ha' : a' < 65536)
    (h : a ≠ a') : l.foldl crcUpdate a ≠ l.foldl crcUpdate a' := by
  induction l generalizing a a' with
  | nil => exact h
  | cons x xs ih =>
    exact ih _ _ (crcUpdate_lt a x) (crcUpdate_lt a' x)
      (fun he => h (crcUpdate_inj_accum a a' x ha ha' he))

theorem crc_CCITT_eq (buf : List Byte) (n : Nat) (hn : n ≤ buf.length) (hs : n < 65536) :
    crc_CCITT buf (n : Int) = some ((buf.take n).foldl crcUpdate 0) := by
  have h1 : (((n : Int) % 65536).toNat) = n := by omega
  simp only [crc_CCITT, h1, hn, if_true]

/-- C9: `crc_CCITT` depends only on the first `n` bytes of the buffer, and for a
length `n` within the buffer and below `2^16` (which covers every positive
`short int`), and an index `i < n` (so `n ≥ 1`), storing at `i` a byte
different from the one there gives a different 16-bit checksum over the `n`
bytes. The table is the standard one for the polynomial `0x1021`. -/
theorem crc_CCITT_single_byte_change (buf : List Byte) (n i : Nat) (b' : Byte)
    (hn : n ≤ buf.length) (hs : n < 65536) (hi : i < n)
    (hb : buf[i]? ≠ some b') :
    (∀ buf' : List Byte, buf'.take n = buf.take n →
      crc_CCITT buf' (n : Int) = crc_CCITT buf (n : Int)) ∧
    (∃ c c', crc_CCITT buf (n : Int) = some c ∧ crc_CCITT (buf.set i b') (n : Int) = some c' ∧
      c < 65536 ∧ c' < 65536 ∧ c ≠ c') := by
  constructor
  · intro buf' htake
    have hlen : n ≤ buf'.length := by
      have h1 : (buf'.take n).length = (buf.take n).length := by rw [htake]
      simp only [List.length_take] at h1
      omega
    rw [crc_CCITT_eq buf n hn hs, crc_CCITT_eq buf' n hlen hs, htake]
  · have hlen' : n ≤ (buf.set i b').length := by simpa using hn
    have hil : i < (buf.take n).length := by
      simp only [List.length_take]
      omega
    have hib : i < buf.length := by omega
    refine ⟨_, _, crc_CCITT_eq buf n hn hs, crc_CCITT_eq _ n hlen' hs,
      foldl_crcUpdate_lt _ 0 (by norm_num), foldl_crcUpdate_lt _ 0 (by norm_num), ?_⟩
    have hset : (buf.set i b').take n
        = (buf.take n).take i ++ b' :: (buf.take n).drop (i + 1) := by
      rw [List.set_take, List.set_eq_take_cons_drop b' hil]
    have horig : buf.take n
        = (buf.take n).take i ++ (buf.take n)[i] :: (buf.take n).drop (i + 1) := by
      rw [← List.drop_eq_getElem_cons hil, List.take_append_drop]
    have hne : (buf.take n)[i] ≠ b' := by
      intro he
      apply hb
      rw [List.getElem_take] at he
      rw [List.getElem?_eq_getElem hib, he]
    rw [hset]
    conv_lhs => rw [horig]
    simp only [List.foldl_append, List.foldl_cons]
    have hpre : ((buf.take n).take i).foldl crcUpdate 0 < 65536 :=
      foldl_crcUpdate_lt _ 0 (by norm_num)
    apply foldl_crcUpdate_ne _ _ _ (crcUpdate_lt _ _) (crcUpdate_lt _ _)
    intro he
    exact hne (crcUpdate_inj_byte _ _ _ hpre he)

theorem crc_CCITT_single_byte_change_witness :
    (∀ buf' : List Byte, buf'.take 9 = checkedMessage.take 9 →
      crc_CCITT buf' ((9 : Nat) : Int) = crc_CCITT checkedMessage ((9 : Nat) : Int)) ∧
    (∃ c c', crc_CCITT checkedMessage ((9 : Nat) : Int) = some c ∧
      crc_CCITT (checkedMessage.set 4 0) ((9 : Nat) : Int) = some c' ∧
      c < 65536 ∧ c' < 65536 ∧ c ≠ c') :=
  crc_CCITT_single_byte_change checkedMessage 9 4 0 (by decide) (by decide) (by decide)
    (by decide)


/-! ## General form of the PVT1B decoders -/

theorem toUInt32_ofNat (u : Nat) (hu : u < 2 ^ 32) : toUInt32 (u : Int) = u := by
  unfold toUInt32
  omega

theorem and_bit23 (u : Nat) (hu : u < 2 ^ 24) : (u &&& 0x800000 ≠ 0) ↔ 2 ^ 23 ≤ u := by
  have e : (0x800000 : Nat) = 2 ^ 23 := by norm_num
  rw [e]
  constructor
  · intro h
    by_contra hlt
    apply h
    apply Nat.eq_of_testBit_eq
    intro j
    rw [Nat.testBit_and, Nat.testBit_two_pow, Nat.zero_testBit]
    by_cases hj : 23 = j
    · subst hj
      rw [Nat.testBit_lt_two_pow (by omega)]
      rfl
    · simp [hj]
  · intro h hz
    have h1 : (u &&& 2 ^ 23).testBit 23 = true := by
      rw [Nat.testBit_and, Nat.testBit_two_pow, Nat.testBit_to_div_mod]
      have : u / 8388608 % 2 = 1 := by omega
      simp [this]
    rw [hz, Nat.zero_testBit] at h1
    exact Bool.noConfusion h1

theorem velocityValue_field (u : Nat) (hu : u < 2 ^ 24) :
    velocityValue (u : Int) =
      if u < 2 ^ 23 then (u : ℚ) / 1024 else ((u : ℚ) + 4278190080) / 1024 := by
  have h32 : toUInt32 (u : Int) = u := toUInt32_ofNat u (by omega)
  unfold velocityValue
  simp only [h32]
  by_cases h : u < 2 ^ 23
  · have hb : ¬ (u &&& 0x800000 ≠ 0) := fun hh => by
      have := (and_bit23 u hu).mp hh
      omega
    rw [if_neg hb, if_pos h, Nat.zero_or]
  · have hb : u &&& 0x800000 ≠ 0 := (and_bit23 u hu).mpr (by omega)
    have hor : 0xFF000000 ||| u = 4278190080 + u := by
      have := Nat.mul_add_lt_is_or hu 255
      norm_num at this
      omega
    rw [if_pos hb, if_neg h, hor]
    push_cast
    ring


theorem rd_lt (buf : List Byte) (i b : Nat) (h : rd buf i = some b) : b < 256 := by
  unfold rd at h
  cases hb : buf[i]? with
  | none => simp [hb] at h
  | some x =>
    simp [hb] at h
    rw [← h]
    exact x.isLt

theorem toUInt32_toInt32 (u : Nat) : toUInt32 (toInt32 u) = u % 2 ^ 32 := by
  unfold toUInt32 toInt32
  split_ifs <;> omega

theorem accumLE_some (buf : List Byte) (off x b : Nat) (a : Int) (h : rd buf (off + x) = some b) :
    accumLE buf off (some a) x = some (toInt32 ((toUInt32 a + (b <<< (8 * x)) % 2 ^ 32) % 2 ^ 32)) := by
  simp [accumLE, h]

theorem gather3 (buf : List Byte) (off b0 b1 b2 : Nat)
    (h0 : rd buf off = some b0) (h1 : rd buf (off + 1) = some b1)
    (h2 : rd buf (off + 2) = some b2) :
    [0, 1, 2].foldl (accumLE buf off) (some 0) = some ((b0 + 256 * b1 + 65536 * b2 : Nat) : Int) := by
  have l0 := rd_lt _ _ _ h0
  have l1 := rd_lt _ _ _ h1
  have l2 := rd_lt _ _ _ h2
  have h0' : rd buf (off + 0) = some b0 := h0
  simp only [List.foldl_cons, List.foldl_nil]
  rw [accumLE_some _ _ _ _ _ h0', accumLE_some _ _ _ _ _ h1, accumLE_some _ _ _ _ _ h2]
  simp only [toUInt32_toInt32, Nat.shiftLeft_eq]
  have e : toUInt32 0 = 0 := by decide
  rw [e]
  congr 1
  unfold toInt32
  norm_num
  split_ifs <;> omega

theorem gather4 (buf : List Byte) (off b0 b1 b2 b3 : Nat)
    (h0 : rd buf off = some b0) (h1 : rd buf (off + 1) = some b1)
    (h2 : rd buf (off + 2) = some b2) (h3 : rd buf (off + 3) = some b3) :
    [0, 1, 2, 3].foldl (accumLE buf off) (some 0)
      = some (toInt32 (b0 + 256 * b1 + 65536 * b2 + 16777216 * b3)) := by
  have l0 := rd_lt _ _ _ h0
  have l1 := rd_lt _ _ _ h1
  have l2 := rd_lt _ _ _ h2
  have l3 := rd_lt _ _ _ h3
  have h0' : rd buf (off + 0) = some b0 := h0
  simp only [List.foldl_cons, List.foldl_nil]
  rw [accumLE_some _ _ _ _ _ h0', accumLE_some _ _ _ _ _ h1, accumLE_some _ _ _ _ _ h2,
    accumLE_some _ _ _ _ _ h3]
  simp only [toUInt32_toInt32, Nat.shiftLeft_eq]
  have e : toUInt32 0 = 0 := by decide
  rw [e]
  congr 2
  norm_num
  omega

theorem tripleAt_some (buf : List Byte) (off u : Nat) (h : tripleAt buf off = some u) :
    ∃ b0 b1 b2, rd buf off = some b0 ∧ rd buf (off + 1) = some b1 ∧
      rd buf (off + 2) = some b2 ∧ u = b0 + 256 * b1 + 65536 * b2 := by
  unfold tripleAt at h
  cases h0 : rd buf off with
  | none => simp [h0] at h
  | some b0 =>
    cases h1 : rd buf (off + 1) with
    | none => simp [h0, h1] at h
    | some b1 =>
      cases h2 : rd buf (off + 2) with
      | none => simp [h0, h1, h2] at h
      | some b2 =>
        simp only [h0, h1, h2, Option.some.injEq] at h
        exact ⟨b0, b1, b2, rfl, rfl, rfl, h.symm⟩

theorem wordAt_some (buf : List Byte) (off u : Nat) (h : wordAt buf off = some u) :
    ∃ b0 b1 b2 b3, rd buf off = some b0 ∧ rd buf (off + 1) = some b1 ∧
      rd buf (off + 2) = some b2 ∧ rd buf (off + 3) = some b3 ∧
      u = b0 + 256 * b1 + 65536 * b2 + 16777216 * b3 := by
  unfold wordAt at h
  cases h0 : rd buf off with
  | none => simp [h0] at h
  | some b0 =>
    cases h1 : rd buf (off + 1) with
    | none => simp [h0, h1] at h
    | some b1 =>
      cases h2 : rd buf (off + 2) with
      | none => simp [h0, h1, h2] at h
      | some b2 =>
        cases h3 : rd buf (off + 3) with
        | none => simp [h0, h1, h2, h3] at h
        | some b3 =>
          simp only [h0, h1, h2, h3, Option.some.injEq] at h
          exact ⟨b0, b1, b2, b3, rfl, rfl, rfl, rfl, h.symm⟩

theorem gather_triple (buf : List Byte) (off u : Nat) (h : tripleAt buf off = some u) :
    [0, 1, 2].foldl (accumLE buf off) (some 0) = some (u : Int) ∧ u < 2 ^ 24 := by
  obtain ⟨b0, b1, b2, h0, h1, h2, hu⟩ := tripleAt_some buf off u h
  have l0 := rd_lt _ _ _ h0
  have l1 := rd_lt _ _ _ h1
  have l2 := rd_lt _ _ _ h2
  rw [hu]
  exact ⟨gather3 buf off b0 b1 b2 h0 h1 h2, by omega⟩

/-- What `getVelocities` stores for a 3-byte field of unsigned value `u`: the
signed reading divided by 1024 when the field is non-negative, and that value
plus `2^32 / 1024` when bit 23 is set. -/
theorem velocityValue_signed24 (u : Nat) (hu : u < 2 ^ 24) :
    velocityValue (u : Int) =
      if 0 ≤ signed24 u then (signed24 u : ℚ) / 1024
      else ((signed24 u : ℚ) + 4294967296) / 1024 := by
  rw [velocityValue_field u hu]
  unfold signed24
  by_cases h : u < 2 ^ 23
  · have h0 : (0 : Int) ≤ (u : Int) := by omega
    simp only [h, if_true, h0]
    push_cast
    rfl
  · have h0 : ¬ ((0 : Int) ≤ (u : Int) - 2 ^ 24) := by omega
    simp only [h, if_false, h0]
    push_cast
    ring

/-- On a PVT1B record, `getVelocities` stores for each of the three fields at
offsets 42, 45, 48 the value `velocityValue` of its unsigned reading. -/
theorem getVelocities_pvt1b (delim0 : Int) (a b c : ℚ) (myBuf : List Byte) (u0 u1 u2 : Nat)
    (hm : getMnemonic delim0 myBuf = some pvt1b)
    (h0 : tripleAt myBuf 42 = some u0) (h1 : tripleAt myBuf 45 = some u1)
    (h2 : tripleAt myBuf 48 = some u2) :
    getVelocities delim0 [a, b, c] myBuf
      = some [velocityValue (u0 : Int), velocityValue (u1 : Int), velocityValue (u2 : Int)] := by
  have g0 : [0, 1, 2].foldl (accumLE myBuf (42 + 3 * 0)) (some 0) = some (u0 : Int) :=
    (gather_triple myBuf 42 u0 h0).1
  have g1 : [0, 1, 2].foldl (accumLE myBuf (42 + 3 * 1)) (some 0) = some (u1 : Int) :=
    (gather_triple myBuf 45 u1 h1).1
  have g2 : [0, 1, 2].foldl (accumLE myBuf (42 + 3 * 2)) (some 0) = some (u2 : Int) :=
    (gather_triple myBuf 48 u2 h2).1
  simp only [getVelocities, hm, ne_eq, not_true_eq_false, if_false, List.foldl_cons,
    List.foldl_nil, velocityLoopBody, g0, g1, g2]
  rfl

/-- On a PVT1B record, `getLatitude` is the truncated quotient by 2048 of the
word at offsets 17..20 read as a signed `int`, divided by 3600; the byte at
offset 25 has no effect. -/
theorem getLatitude_pvt1b (delim0 : Int) (myBuf : List Byte) (U n : Nat)
    (hm : getMnemonic delim0 myBuf = some pvt1b)
    (hU : wordAt myBuf 17 = some U) (hn : rd myBuf 25 = some n) :
    getLatitude delim0 myBuf = some (((Int.tdiv (toInt32 U) 2048 : Int) : ℚ) / 3600) := by
  obtain ⟨b0, b1, b2, b3, h0, h1, h2, h3, hu⟩ := wordAt_some myBuf 17 U hU
  have g := gather4 myBuf 17 b0 b1 b2 b3 h0 h1 h2 h3
  have hz : ((n &&& 0xF0) >>> 8) = 0 := by
    rw [Nat.shiftRight_eq_div_pow]
    have : n &&& 0xF0 ≤ 0xF0 := Nat.and_le_right
    norm_num
    omega
  simp only [getLatitude, hm, ne_eq, not_true_eq_false, if_false, latitudeExpr, g, hn, hz, ← hu]
  simp

/-- On a PVT1B record, `getLongitude` is the truncated quotient by 2048 of the
word at offsets 21..24 read as a signed `int`, divided by 3600; the byte at
offset 25 has no effect. -/
theorem getLongitude_pvt1b (delim0 : Int) (myBuf : List Byte) (U n : Nat)
    (hm : getMnemonic delim0 myBuf = some pvt1b)
    (hU : wordAt myBuf 21 = some U) (hn : rd myBuf 25 = some n) :
    getLongitude delim0 myBuf = some (((Int.tdiv (toInt32 U) 2048 : Int) : ℚ) / 3600) := by
  obtain ⟨b0, b1, b2, b3, h0, h1, h2, h3, hu⟩ := wordAt_some myBuf 21 U hU
  have g := gather4 myBuf 21 b0 b1 b2 b3 h0 h1 h2 h3
  have hz : Int.tdiv (((n &&& 0x0F : Nat) : Int)) 32768 = 0 := by
    have : n &&& 0x0F ≤ 0x0F := Nat.and_le_right
    exact Int.tdiv_eq_zero_of_lt (by omega) (by omega)
  simp only [getLongitude, hm, ne_eq, not_true_eq_false, if_false, longitudeExpr, g, hn, hz, ← hu]
  simp

end Navcom
